import Mathlib

/-!
Shallow embedding of the `metering` middleware
(`src/lib/middlewares/src/metering.rs` of `webmaster128/wasmer`).

The middleware tracks how many "points" a WebAssembly module consumes:
* `Metering.transform_module_info` appends one mutable i64 global to the
  module, initialized to `initial_limit`, and exports it as
  `"remaining_points"`;
* `FunctionMetering.feed` rewrites each function body, accumulating the
  cost of each operator and, at basic-block boundaries, injecting a
  guard-plus-deduction instruction sequence against that global;
* `get_remaining_points` / `set_remaining_points` read and overwrite the
  exported global on a live instance.

Conventions of the embedding:
* `u64` values are `Nat` with arithmetic reduced `% 2^64` where the Rust
  code can wrap (release-build semantics of `+=`) or casts (`as i64`);
* Rust panics (`panic!`, `.expect(..)`) are modelled by `Option`/`none`;
* the output side effect of `MiddlewareReaderState` (`extend`,
  `push_operator`) is modelled by returning the list of operators the
  call appends, in order.
-/

/-- Number of values representable in 64 bits. -/
def U64 : Nat := 2 ^ 64

/-- Reinterpret a `u64` value as an `i64` (the Rust `as i64` cast). -/
def toI64 (n : Nat) : Int :=
  if n < 2 ^ 63 then (n : Int) else (n : Int) - U64

/-- Reinterpret an `i64` value as a `u64` (the Rust `as u64` cast). -/
def intToU64 (v : Int) : Nat :=
  (v % (U64 : Int)).toNat

/-- `wasmer::Type` (value types). Named `Ty` since `Type` is reserved in Lean. -/
inductive Ty where
  | i32
  | i64
  | f32
  | f64
  | v128
  | externRef
  | funcRef
deriving DecidableEq, Repr

/-- `wasmer::Mutability`. -/
inductive Mutability where
  | const
  | var
deriving DecidableEq, Repr

/-- `wasmer::GlobalType`: a value type together with a mutability flag. -/
structure GlobalType where
  ty : Ty
  mutability : Mutability
deriving DecidableEq, Repr

/-- `wasmer::wasmparser::Type` (the parser's type enum, which also carries
the empty block type used for the injected `if`). -/
inductive WpType where
  | i32
  | i64
  | f32
  | f64
  | emptyBlockType
deriving DecidableEq, Repr

/-- `wasmer::wasmparser::TypeOrFuncType`. -/
inductive WpTypeOrFuncType where
  | type (t : WpType)
  | funcType (idx : Nat)
deriving DecidableEq, Repr

/-- `wasmer::wasmparser::Operator`, restricted to the variants the metering
middleware matches on or emits; every other operator kind is collapsed into
`other` (the middleware treats all of them identically, via its `_` arm). -/
inductive Operator where
  | loop_ (ty : WpTypeOrFuncType)
  | block (ty : WpTypeOrFuncType)
  | if_ (ty : WpTypeOrFuncType)
  | else_
  | end_
  | br (relative_depth : Nat)
  | brTable (targets : List Nat)
  | brIf (relative_depth : Nat)
  | call (function_index : Nat)
  | callIndirect (index : Nat) (table_index : Nat)
  | return_
  | unreachable_
  | globalGet (global_index : Nat)
  | globalSet (global_index : Nat)
  | i64Const (value : Int)
  | i64LtU
  | i64Sub
  | other (code : Nat)
deriving DecidableEq, Repr

/-- `wasmer::GlobalInit`: the initializer of a module global (only the
variant the middleware produces, plus representatives of the others). -/
inductive GlobalInit where
  | i32Const (value : Int)
  | i64Const (value : Int)
  | f32Const (bits : Nat)
  | f64Const (bits : Nat)
  | getGlobal (index : Nat)
deriving DecidableEq, Repr

/-- `wasmer::ExportIndex`: what a module export points at. -/
inductive ExportIndex where
  | function (idx : Nat)
  | table (idx : Nat)
  | memory (idx : Nat)
  | global (idx : Nat)
deriving DecidableEq, Repr

/-- The slice of `wasmer_vm::ModuleInfo` the middleware touches
(`globals`, `global_initializers`, `exports`), plus representative fields
it never touches, so that frame conditions are statable. `PrimaryMap`s are
lists indexed by position (a `push` appends and returns the old length);
the `exports` `IndexMap` is modelled by its lookup function. -/
structure ModuleInfo where
  globals : List GlobalType
  global_initializers : List GlobalInit
  exports : String → Option ExportIndex
  /-- stands for `ModuleInfo.functions`, untouched by the middleware -/
  functions : List Nat
  /-- stands for `ModuleInfo.memories`, untouched by the middleware -/
  memories : List Nat
  /-- stands for `ModuleInfo.tables`, untouched by the middleware -/
  tables : List Nat
  /-- stands for `ModuleInfo.start_function`, untouched by the middleware -/
  start_function : Option Nat
  /-- stands for `ModuleInfo.imports`, untouched by the middleware -/
  imports : List (String × String)

/-- The module-level metering middleware (`Metering<F>`).
`remaining_points_index` is the content of the `Mutex<Option<GlobalIndex>>`. -/
structure Metering where
  initial_limit : Nat
  cost_function : Operator → Nat
  remaining_points_index : Option Nat

/-- The function-level metering middleware (`FunctionMetering<F>`). -/
structure FunctionMetering where
  cost_function : Operator → Nat
  remaining_points_index : Nat
  accumulated_cost : Nat

/-- `Metering::new`. -/
def Metering.new (initial_limit : Nat) (cost_function : Operator → Nat) : Metering :=
  { initial_limit := initial_limit
    cost_function := cost_function
    remaining_points_index := none }

/-- `Metering::generate_function_middleware`. The `.expect(..)` on the
unset index is modelled by `none`. -/
def Metering.generate_function_middleware (m : Metering) : Option FunctionMetering :=
  match m.remaining_points_index with
  | none => none
  | some idx =>
      some { cost_function := m.cost_function
             remaining_points_index := idx
             accumulated_cost := 0 }

/-- `Metering::transform_module_info`. The `panic!` on a second invocation
is modelled by `none`; on success the updated middleware state and module
are returned. -/
def Metering.transform_module_info (m : Metering) (module_info : ModuleInfo) :
    Option (Metering × ModuleInfo) :=
  match m.remaining_points_index with
  | some _ => none
  | none =>
      let global_index := module_info.globals.length
      some
        ({ m with remaining_points_index := some global_index },
         { module_info with
            globals := module_info.globals ++ [⟨Ty.i64, Mutability.var⟩]
            global_initializers :=
              module_info.global_initializers ++ [GlobalInit.i64Const (toI64 m.initial_limit)]
            exports := fun name =>
              if name = "remaining_points" then some (ExportIndex.global global_index)
              else module_info.exports name })

/-- The guard-plus-deduction sequence `FunctionMetering::feed` passes to
`state.extend` when flushing an accumulated cost at a block boundary. -/
def flushSeq (remaining_points_index accumulated_cost : Nat) : List Operator :=
  [ -- if unsigned(globals[remaining_points_index]) < unsigned(accumulated_cost) { throw(); }
    Operator.globalGet remaining_points_index,
    Operator.i64Const (toI64 accumulated_cost),
    Operator.i64LtU,
    Operator.if_ (WpTypeOrFuncType.type WpType.emptyBlockType),
    Operator.unreachable_,
    Operator.end_,
    -- globals[remaining_points_index] -= accumulated_cost;
    Operator.globalGet remaining_points_index,
    Operator.i64Const (toI64 accumulated_cost),
    Operator.i64Sub,
    Operator.globalSet remaining_points_index ]

/-- The nine-armed `match` of `FunctionMetering::feed`: possible sources and
targets of a branch. -/
def isBranchOp : Operator → Bool
  | Operator.loop_ _ => true
  | Operator.end_ => true
  | Operator.else_ => true
  | Operator.br _ => true
  | Operator.brTable _ => true
  | Operator.brIf _ => true
  | Operator.call _ => true
  | Operator.callIndirect _ _ => true
  | Operator.return_ => true
  | _ => false

/-- `FunctionMetering::feed`. Returns the updated middleware state and the
operators appended to the `MiddlewareReaderState`, in order. The `+=` on
`accumulated_cost` wraps at `2^64` (release-build semantics). -/
def FunctionMetering.feed (fm : FunctionMetering) (operator : Operator) :
    FunctionMetering × List Operator :=
  let fm := { fm with
    accumulated_cost := (fm.accumulated_cost + fm.cost_function operator) % U64 }
  if isBranchOp operator then
    if fm.accumulated_cost > 0 then
      ({ fm with accumulated_cost := 0 },
       flushSeq fm.remaining_points_index fm.accumulated_cost ++ [operator])
    else
      (fm, [operator])
  else
    (fm, [operator])

/-- Feeding a whole instruction sequence through `FunctionMetering::feed`,
concatenating the emitted output. -/
def FunctionMetering.feedList (fm : FunctionMetering) :
    List Operator → FunctionMetering × List Operator
  | [] => (fm, [])
  | op :: rest =>
      let s := fm.feed op
      let t := s.1.feedList rest
      (t.1, s.2 ++ t.2)

/-!
A small-step interpreter for the straight-line fragment of WebAssembly the
injected sequences use (per the WebAssembly core semantics): an operand
stack of `u64` values, a global store, structured `if`/`end` blocks with
no branches. An operator outside the fragment gets stuck. The skip state
`some d` means the interpreter is skipping a not-taken branch, currently
`d` block levels deep.
-/

/-- Outcome of executing an operator sequence: normal completion with the
final stack and globals, a trap (`unreachable` was executed) with the
globals as they stood at the trap, or stuck on an unsupported construct. -/
inductive ExecResult where
  | ok (stack : List Nat) (globals : Nat → Nat)
  | trap (globals : Nat → Nat)
  | stuck

/-- Execute operators left to right. `skip = some d` while skipping over a
not-taken `if` branch (`d` = nesting depth of blocks opened inside it). -/
def exec : List Operator → Option Nat → List Nat → (Nat → Nat) → ExecResult
  | [], none, stack, globals => ExecResult.ok stack globals
  | [], some _, _, _ => ExecResult.stuck
  | op :: rest, some d, stack, globals =>
      match op with
      | Operator.end_ =>
          match d with
          | 0 => exec rest none stack globals
          | d + 1 => exec rest (some d) stack globals
      | Operator.else_ =>
          match d with
          | 0 => exec rest none stack globals
          | _ + 1 => exec rest (some d) stack globals
      | Operator.if_ _ => exec rest (some (d + 1)) stack globals
      | Operator.block _ => exec rest (some (d + 1)) stack globals
      | Operator.loop_ _ => exec rest (some (d + 1)) stack globals
      | _ => exec rest (some d) stack globals
  | op :: rest, none, stack, globals =>
      match op with
      | Operator.unreachable_ => ExecResult.trap globals
      | Operator.globalGet i => exec rest none (globals i :: stack) globals
      | Operator.globalSet i =>
          match stack with
          | v :: s => exec rest none s (fun j => if j = i then v else globals j)
          | [] => ExecResult.stuck
      | Operator.i64Const v => exec rest none (intToU64 v :: stack) globals
      | Operator.i64LtU =>
          match stack with
          | b :: a :: s => exec rest none ((if a < b then 1 else 0) :: s) globals
          | _ => ExecResult.stuck
      | Operator.i64Sub =>
          match stack with
          | b :: a :: s => exec rest none (((a + U64 - b) % U64) :: s) globals
          | _ => ExecResult.stuck
      | Operator.if_ _ =>
          match stack with
          | c :: s =>
              if c ≠ 0 then exec rest none s globals
              else exec rest (some 0) s globals
          | [] => ExecResult.stuck
      | Operator.else_ => exec rest (some 0) stack globals
      | Operator.end_ => exec rest none stack globals
      | Operator.block _ => exec rest none stack globals
      | _ => ExecResult.stuck

/-!
The runtime accessor API (`get_remaining_points` / `set_remaining_points`)
acts on an already-instantiated module through its exports.
-/

/-- A `wasmer::Value` as stored in a global. -/
inductive Value where
  | i32 (v : Int)
  | i64 (v : Int)
  | f32 (bits : Nat)
  | f64 (bits : Nat)
deriving DecidableEq, Repr

/-- The value type of a `Value`. -/
def Value.ty : Value → Ty
  | Value.i32 _ => Ty.i32
  | Value.i64 _ => Ty.i64
  | Value.f32 _ => Ty.f32
  | Value.f64 _ => Ty.f64

/-- A live `wasmer::Global`: its type and current value. -/
structure GlobalVar where
  ty : GlobalType
  value : Value
deriving DecidableEq, Repr

/-- An instance export (`wasmer::Extern`), reduced to whether it is a
global (carrying the global) or some other kind of extern. -/
inductive Extern where
  | global (g : GlobalVar)
  | function (idx : Nat)
  | memory (idx : Nat)
  | table (idx : Nat)
deriving DecidableEq, Repr

/-- The export surface of a live `wasmer::Instance`. -/
structure Instance where
  exports : String → Option Extern

/-- `Exports::get_global`: succeeds only when the name is exported and the
export is a global (`ExportError::Missing` / `IncompatibleType` otherwise). -/
def Instance.get_global (inst : Instance) (name : String) : Option GlobalVar :=
  match inst.exports name with
  | some (Extern.global g) => some g
  | _ => none

/-- `Global::get().try_into::<u64>()`: succeeds only on an `I64` value,
reinterpreting its bits as `u64`. -/
def Value.tryIntoU64 : Value → Option Nat
  | Value.i64 v => some (intToU64 v)
  | _ => none

/-- `Global::set`: fails on an immutable global or a type mismatch,
otherwise replaces the stored value. -/
def GlobalVar.set (g : GlobalVar) (v : Value) : Option GlobalVar :=
  if g.ty.mutability = Mutability.var ∧ v.ty = g.ty.ty then
    some { g with value := v }
  else
    none

/-- `get_remaining_points`: look up the `"remaining_points"` export, read
its value, convert to `u64`. Each `.expect(..)` panic is `none`. -/
def get_remaining_points (inst : Instance) : Option Nat :=
  match inst.get_global "remaining_points" with
  | none => none
  | some g => g.value.tryIntoU64

/-- `set_remaining_points`: look up the `"remaining_points"` export and
overwrite its value with the given `u64` (`points.into()` builds an `I64`
value from the `u64` bits). Each `.expect(..)` panic is `none`. -/
def set_remaining_points (inst : Instance) (points : Nat) : Option Instance :=
  match inst.get_global "remaining_points" with
  | none => none
  | some g =>
      match g.set (Value.i64 (toI64 points)) with
      | none => none
      | some g' =>
          some ⟨fun name =>
            if name = "remaining_points" then some (Extern.global g')
            else inst.exports name⟩

/-- The nine operator kinds the specification classifies as basic-block
boundaries, written out as a disjunction over the operator's shape. -/
def IsBranchPoint (op : Operator) : Prop :=
  (∃ t, op = Operator.loop_ t) ∨ op = Operator.end_ ∨ op = Operator.else_ ∨
  (∃ n, op = Operator.br n) ∨ (∃ ts, op = Operator.brTable ts) ∨
  (∃ n, op = Operator.brIf n) ∨ (∃ n, op = Operator.call n) ∨
  (∃ a b, op = Operator.callIndirect a b) ∨ op = Operator.return_

/-!
Concrete inputs used by the witnesses.
-/

/-- A function middleware charging one point per operator, global index 0,
nothing accumulated yet. -/
def fmOne : FunctionMetering :=
  { cost_function := fun _ => 1, remaining_points_index := 0, accumulated_cost := 0 }

/-- A function middleware charging nothing, global index 0. -/
def fmZero : FunctionMetering :=
  { cost_function := fun _ => 0, remaining_points_index := 0, accumulated_cost := 0 }

/-- An empty module description. -/
def miEmpty : ModuleInfo :=
  { globals := [], global_initializers := [], exports := fun _ => none,
    functions := [], memories := [], tables := [], start_function := none,
    imports := [] }

/-- The `u64` bit pattern an i64 `GlobalInit` stores into its global. -/
def GlobalInit.u64value : GlobalInit → Option Nat
  | GlobalInit.i64Const v => some (intToU64 v)
  | _ => none

/-- A middleware charging `2^63 + 1` points per operator (to exercise the
wrap of the accumulator), global index 0. -/
def fmBig : FunctionMetering :=
  { cost_function := fun _ => 2 ^ 63 + 1, remaining_points_index := 0,
    accumulated_cost := 0 }

/-- A block of two non-boundary operators, total cost `2^64 + 2` under
`fmBig`. -/
def opsBig : List Operator := [Operator.other 0, Operator.other 1]

/-- An instance exporting a mutable i64 global of value 7 under
`"remaining_points"`. -/
def instSeven : Instance :=
  ⟨fun name =>
    if name = "remaining_points" then
      some (Extern.global ⟨⟨Ty.i64, Mutability.var⟩, Value.i64 7⟩)
    else none⟩

/-!
Helper lemmas shared by several claims.
-/

/-- Casting a `u64` to `i64` and reading the bits back as `u64` is the
identity. -/
theorem intToU64_toI64 (n : Nat) (h : n < U64) : intToU64 (toI64 n) = n := by
  unfold intToU64 toI64 U64 at *
  split <;> push_cast <;> omega

/-- `feed` never changes the cost function or the global index of the
function middleware; only `accumulated_cost` evolves. -/
theorem feed_preserves (fm : FunctionMetering) (op : Operator) :
    (fm.feed op).1.cost_function = fm.cost_function ∧
    (fm.feed op).1.remaining_points_index = fm.remaining_points_index := by
  unfold FunctionMetering.feed
  dsimp only
  split <;> [skip; exact ⟨rfl, rfl⟩]
  split <;> exact ⟨rfl, rfl⟩

/-- The `match` arms of `feed` select exactly the nine boundary kinds. -/
theorem isBranchOp_iff (op : Operator) : isBranchOp op = true ↔ IsBranchPoint op := by
  cases op <;> simp [isBranchOp, IsBranchPoint]

/-- C2. A guard/deduction sequence is injected only for the nine
boundary kinds (loop-entry, end, else, br, br_table, br_if, call,
call_indirect, return); any other operator kind injects nothing; and in
every case the original operator is forwarded unchanged after any injected
sequence. -/
theorem claim_C2 (fm : FunctionMetering) (op : Operator) :
    ((fm.feed op).2 = [op] ∨
      (fm.feed op).2 =
        flushSeq fm.remaining_points_index
          ((fm.accumulated_cost + fm.cost_function op) % U64) ++ [op]) ∧
    ((fm.feed op).2 ≠ [op] → IsBranchPoint op) ∧
    (¬ IsBranchPoint op → (fm.feed op).2 = [op]) := by
  have hiff := isBranchOp_iff op
  unfold FunctionMetering.feed
  dsimp only
  by_cases hbr : isBranchOp op = true
  · rw [if_pos hbr]
    by_cases hpos : (fm.accumulated_cost + fm.cost_function op) % U64 > 0
    · rw [if_pos hpos]
      refine ⟨Or.inr rfl, fun _ => hiff.mp hbr, fun hn => absurd (hiff.mp hbr) hn⟩
    · rw [if_neg hpos]
      exact ⟨Or.inl rfl, fun hne => absurd rfl hne, fun _ => rfl⟩
  · rw [if_neg hbr]
    exact ⟨Or.inl rfl, fun hne => absurd rfl hne, fun _ => rfl⟩

/-- Witness for C2 at concrete inputs: a non-boundary operator
(`i64.const 3`) injects nothing. -/
theorem claim_C2_witness : (fmOne.feed (Operator.i64Const 3)).2 = [Operator.i64Const 3] :=
  (claim_C2 fmOne (Operator.i64Const 3)).2.2 (by simp [IsBranchPoint])

/-- At a boundary operator whose updated accumulated cost is positive,
`feed` emits the flush of exactly that amount and resets the accumulator. -/
theorem feed_flush (fm : FunctionMetering) (op : Operator)
    (hb : isBranchOp op = true)
    (h : 0 < (fm.accumulated_cost + fm.cost_function op) % U64) :
    (fm.feed op).2 =
      flushSeq fm.remaining_points_index
        ((fm.accumulated_cost + fm.cost_function op) % U64) ++ [op] ∧
    (fm.feed op).1.accumulated_cost = 0 := by
  unfold FunctionMetering.feed
  dsimp only
  rw [if_pos hb, if_pos h]
  exact ⟨rfl, rfl⟩

/-- C3. The operator's own cost is added to `accumulated_cost` before the
boundary classification: a boundary operator whose updated accumulated
cost is positive triggers a flush of exactly that updated amount (its own
cost included), and the accumulator is then reset to zero. -/
theorem claim_C3 (fm : FunctionMetering) (op : Operator)
    (hb : isBranchOp op = true)
    (h : 0 < (fm.accumulated_cost + fm.cost_function op) % U64) :
    (fm.feed op).2 =
      flushSeq fm.remaining_points_index
        ((fm.accumulated_cost + fm.cost_function op) % U64) ++ [op] ∧
    (fm.feed op).1.accumulated_cost = 0 :=
  feed_flush fm op hb h

/-- Witness for C3: feeding `return` to a middleware charging 1 point per
operator flushes 1 point (the `return`'s own cost). -/
theorem claim_C3_witness :
    (fmOne.feed Operator.return_).2 =
      flushSeq fmOne.remaining_points_index
        ((fmOne.accumulated_cost + fmOne.cost_function Operator.return_) % U64)
        ++ [Operator.return_] ∧
    (fmOne.feed Operator.return_).1.accumulated_cost = 0 :=
  claim_C3 fmOne Operator.return_ rfl (by decide)

/-- C5. Calling `transform_module_info` a second time on the same
`Metering` (the remaining-points index is already assigned) panics; in the
embedding the call returns `none`, producing no updated state, so the
already-assigned index is untouched. -/
theorem claim_C5 (m : Metering) (module_info : ModuleInfo) (i : Nat)
    (h : m.remaining_points_index = some i) :
    m.transform_module_info module_info = none := by
  unfold Metering.transform_module_info
  rw [h]

/-- Witness for C5: a metering whose index is already `some 0` panics on a
second transform. -/
theorem claim_C5_witness :
    Metering.transform_module_info
      { initial_limit := 10, cost_function := fun _ => 1,
        remaining_points_index := some 0 } miEmpty = none :=
  claim_C5 _ miEmpty 0 rfl

/-- C9. Calling `generate_function_middleware` before
`transform_module_info` has assigned the remaining-points index panics
(`none` in the embedding) instead of producing a middleware with an
invalid global slot. -/
theorem claim_C9 (m : Metering) (h : m.remaining_points_index = none) :
    m.generate_function_middleware = none := by
  unfold Metering.generate_function_middleware
  rw [h]

/-- Witness for C9: a freshly created metering cannot generate a function
middleware. -/
theorem claim_C9_witness :
    (Metering.new 10 (fun _ => 1)).generate_function_middleware = none :=
  claim_C9 (Metering.new 10 (fun _ => 1)) rfl

/-- Feeding a zero-cost operator to a middleware with an empty accumulator
is a no-op on the state and forwards the operator alone. -/
theorem feed_zero (fm : FunctionMetering) (op : Operator)
    (hcost : fm.cost_function op = 0) (hacc : fm.accumulated_cost = 0) :
    fm.feed op = (fm, [op]) := by
  obtain ⟨cf, idx, acc⟩ := fm
  simp only at hcost hacc
  subst hacc
  unfold FunctionMetering.feed
  dsimp only
  rw [hcost]
  norm_num

/-- `feedList` never changes the cost function or the global index. -/
theorem feedList_preserves (fm : FunctionMetering) (ops : List Operator) :
    (fm.feedList ops).1.cost_function = fm.cost_function ∧
    (fm.feedList ops).1.remaining_points_index = fm.remaining_points_index := by
  induction ops generalizing fm with
  | nil => exact ⟨rfl, rfl⟩
  | cons op rest ih =>
      have hf := feed_preserves fm op
      have hl := ih (fm.feed op).1
      unfold FunctionMetering.feedList
      dsimp only
      exact ⟨hl.1.trans hf.1, hl.2.trans hf.2⟩

/-- `feedList` splits over list concatenation. -/
theorem feedList_append (fm : FunctionMetering) (l1 l2 : List Operator) :
    fm.feedList (l1 ++ l2) =
      (((fm.feedList l1).1.feedList l2).1,
        (fm.feedList l1).2 ++ ((fm.feedList l1).1.feedList l2).2) := by
  induction l1 generalizing fm with
  | nil => simp [FunctionMetering.feedList]
  | cons op rest ih =>
      simp only [List.cons_append, FunctionMetering.feedList]
      rw [List.append_eq, ih (fm.feed op).1]
      simp [List.append_assoc]

/-- C6. With an all-zero cost function (and nothing carried over), the
rewriter emits exactly the original sequence; in particular a boundary
operator reached with an accumulated cost of zero forwards only itself. -/
theorem claim_C6 (fm : FunctionMetering) (ops : List Operator) (op : Operator)
    (hcost : ∀ o, fm.cost_function o = 0) (hacc : fm.accumulated_cost = 0)
    (hb : isBranchOp op = true) :
    (fm.feedList ops).2 = ops ∧ (fm.feed op).2 = [op] := by
  constructor
  · induction ops with
    | nil => rfl
    | cons o rest ih =>
        unfold FunctionMetering.feedList
        dsimp only
        rw [feed_zero fm o (hcost o) hacc]
        rw [ih]
        rfl
  · rw [feed_zero fm op (hcost op) hacc]

/-- Witness for C6: a body `call 0; end` under the zero cost function is
reproduced verbatim, and the boundary `return` alone forwards itself. -/
theorem claim_C6_witness :
    (fmZero.feedList [Operator.call 0, Operator.end_]).2 =
        [Operator.call 0, Operator.end_] ∧
    (fmZero.feed Operator.return_).2 = [Operator.return_] :=
  claim_C6 fmZero [Operator.call 0, Operator.end_] Operator.return_
    (fun _ => rfl) rfl rfl

/-- C10. The accumulator addition wraps at `2^64`: across a run of
non-boundary operators the accumulator holds the true cost sum reduced
modulo `2^64` (with nothing emitted), and the amount flushed at the next
boundary is that reduced value, not the true sum. -/
theorem claim_C10 (fm : FunctionMetering) (ops : List Operator) (b : Operator)
    (h : ∀ o ∈ ops, isBranchOp o = false)
    (hacc : fm.accumulated_cost < U64)
    (hb : isBranchOp b = true)
    (hpos : 0 < (fm.accumulated_cost + (ops.map fm.cost_function).sum
        + fm.cost_function b) % U64) :
    (fm.feedList ops).1.accumulated_cost =
      (fm.accumulated_cost + (ops.map fm.cost_function).sum) % U64 ∧
    (fm.feedList ops).2 = ops ∧
    (fm.feedList (ops ++ [b])).2 =
      ops ++ flushSeq fm.remaining_points_index
        ((fm.accumulated_cost + (ops.map fm.cost_function).sum
          + fm.cost_function b) % U64) ++ [b] := by
  have main : ∀ (l : List Operator) (g : FunctionMetering),
      (∀ o ∈ l, isBranchOp o = false) → g.accumulated_cost < U64 →
      (g.feedList l).1.accumulated_cost =
        (g.accumulated_cost + (l.map g.cost_function).sum) % U64 ∧
      (g.feedList l).2 = l := by
    intro l
    induction l with
    | nil =>
        intro g _ hg
        exact ⟨(Nat.mod_eq_of_lt (by simpa using hg)).symm, rfl⟩
    | cons o rest ih =>
        intro g hl hg
        have ho : isBranchOp o = false := hl o (List.mem_cons_self o rest)
        have hfeed : g.feed o =
            ({ g with accumulated_cost :=
                (g.accumulated_cost + g.cost_function o) % U64 }, [o]) := by
          unfold FunctionMetering.feed
          dsimp only
          rw [ho]
          simp
        have hrest := ih { g with accumulated_cost :=
            (g.accumulated_cost + g.cost_function o) % U64 }
          (fun x hx => hl x (List.mem_cons_of_mem o hx))
          (Nat.mod_lt _ (by unfold U64; positivity))
        unfold FunctionMetering.feedList
        dsimp only
        rw [hfeed]
        refine ⟨?_, ?_⟩
        · rw [hrest.1]
          dsimp only
          rw [Nat.mod_add_mod]
          simp [Nat.add_assoc]
        · rw [hrest.2]
          rfl
  obtain ⟨h1, h2⟩ := main ops fm h hacc
  refine ⟨h1, h2, ?_⟩
  rw [feedList_append]
  have hcf := (feedList_preserves fm ops).1
  have hidx := (feedList_preserves fm ops).2
  have hflush : (fm.feedList ops).1.feed b =
      ({ (fm.feedList ops).1 with accumulated_cost := 0 },
        flushSeq fm.remaining_points_index
          ((fm.accumulated_cost + (ops.map fm.cost_function).sum
            + fm.cost_function b) % U64) ++ [b]) := by
    unfold FunctionMetering.feed
    dsimp only
    rw [hb, h1, hcf, hidx, Nat.mod_add_mod]
    rw [if_pos hpos]
    simp
  rw [h2]
  unfold FunctionMetering.feedList
  rw [hflush]
  dsimp only [FunctionMetering.feedList]
  simp [List.append_assoc]

/-- Witness for C10: two operators of cost `2^63 + 1` wrap the
accumulator to `2`, and the flush at the following `return` deducts
`(2^64 + 2 + 2^63 + 1) mod 2^64 = 2^63 + 3`, not the true sum. -/
theorem claim_C10_witness :
    (fmBig.feedList opsBig).1.accumulated_cost =
      (fmBig.accumulated_cost + (opsBig.map fmBig.cost_function).sum) % U64 ∧
    (fmBig.feedList opsBig).2 = opsBig ∧
    (fmBig.feedList (opsBig ++ [Operator.return_])).2 =
      opsBig ++ flushSeq fmBig.remaining_points_index
        ((fmBig.accumulated_cost + (opsBig.map fmBig.cost_function).sum
          + fmBig.cost_function Operator.return_) % U64) ++ [Operator.return_] :=
  claim_C10 fmBig opsBig Operator.return_ (by decide) (by decide) rfl (by decide)

/-- C4. A first `transform_module_info` appends exactly one new mutable
i64 global initialized to `initial_limit` (as a `u64` bit pattern),
records the assigned index (the old length of the globals table) into the
configuration, and routes the `"remaining_points"` export name to that
global, superseding any pre-existing export under that name. -/
theorem claim_C4 (m : Metering) (module_info : ModuleInfo)
    (hm : m.remaining_points_index = none) (hlim : m.initial_limit < U64) :
    ∃ m' mi', m.transform_module_info module_info = some (m', mi') ∧
      mi'.globals = module_info.globals ++ [⟨Ty.i64, Mutability.var⟩] ∧
      mi'.global_initializers = module_info.global_initializers
        ++ [GlobalInit.i64Const (toI64 m.initial_limit)] ∧
      (GlobalInit.i64Const (toI64 m.initial_limit)).u64value = some m.initial_limit ∧
      m'.remaining_points_index = some module_info.globals.length ∧
      mi'.exports "remaining_points" =
        some (ExportIndex.global module_info.globals.length) := by
  refine ⟨{ m with remaining_points_index := some module_info.globals.length },
    { module_info with
        globals := module_info.globals ++ [⟨Ty.i64, Mutability.var⟩]
        global_initializers := module_info.global_initializers
          ++ [GlobalInit.i64Const (toI64 m.initial_limit)]
        exports := fun name =>
          if name = "remaining_points" then
            some (ExportIndex.global module_info.globals.length)
          else module_info.exports name },
    ?_, rfl, rfl, ?_, rfl, ?_⟩
  · unfold Metering.transform_module_info
    rw [hm]
  · simp only [GlobalInit.u64value]
    rw [intToU64_toI64 m.initial_limit hlim]
  · simp

/-- Witness for C4: transforming an empty module with a fresh metering of
limit 10. -/
theorem claim_C4_witness :
    ∃ m' mi', (Metering.new 10 (fun _ => 1)).transform_module_info miEmpty
        = some (m', mi') ∧
      mi'.globals = miEmpty.globals ++ [⟨Ty.i64, Mutability.var⟩] ∧
      mi'.global_initializers = miEmpty.global_initializers
        ++ [GlobalInit.i64Const (toI64 (Metering.new 10 (fun _ => 1)).initial_limit)] ∧
      (GlobalInit.i64Const (toI64 (Metering.new 10 (fun _ => 1)).initial_limit)).u64value
        = some (Metering.new 10 (fun _ => 1)).initial_limit ∧
      m'.remaining_points_index = some miEmpty.globals.length ∧
      mi'.exports "remaining_points" =
        some (ExportIndex.global miEmpty.globals.length) :=
  claim_C4 (Metering.new 10 (fun _ => 1)) miEmpty rfl (by decide)

/-- C8. `transform_module_info` only appends one global, appends one
initializer, and redirects the one export name `"remaining_points"`:
every pre-existing global and initializer keeps its index and value,
every other export name resolves as before, and every other module field
is untouched. -/
theorem claim_C8 (m : Metering) (module_info : ModuleInfo)
    (hm : m.remaining_points_index = none) :
    ∃ m' mi', m.transform_module_info module_info = some (m', mi') ∧
      mi'.globals.length = module_info.globals.length + 1 ∧
      mi'.globals.take module_info.globals.length = module_info.globals ∧
      mi'.global_initializers.length = module_info.global_initializers.length + 1 ∧
      mi'.global_initializers.take module_info.global_initializers.length
        = module_info.global_initializers ∧
      (∀ name, name ≠ "remaining_points" →
        mi'.exports name = module_info.exports name) ∧
      mi'.functions = module_info.functions ∧
      mi'.memories = module_info.memories ∧
      mi'.tables = module_info.tables ∧
      mi'.start_function = module_info.start_function ∧
      mi'.imports = module_info.imports := by
  refine ⟨{ m with remaining_points_index := some module_info.globals.length },
    { module_info with
        globals := module_info.globals ++ [⟨Ty.i64, Mutability.var⟩]
        global_initializers := module_info.global_initializers
          ++ [GlobalInit.i64Const (toI64 m.initial_limit)]
        exports := fun name =>
          if name = "remaining_points" then
            some (ExportIndex.global module_info.globals.length)
          else module_info.exports name },
    ?_, ?_, ?_, ?_, ?_, ?_, rfl, rfl, rfl, rfl, rfl⟩
  · unfold Metering.transform_module_info
    rw [hm]
  · simp
  · exact List.take_left _ _
  · simp
  · exact List.take_left _ _
  · intro name hname
    simp [hname]

/-- Witness for C8 on an empty module and a fresh metering. -/
theorem claim_C8_witness :
    ∃ m' mi', (Metering.new 10 (fun _ => 1)).transform_module_info miEmpty
        = some (m', mi') ∧
      mi'.globals.length = miEmpty.globals.length + 1 ∧
      mi'.globals.take miEmpty.globals.length = miEmpty.globals ∧
      mi'.global_initializers.length = miEmpty.global_initializers.length + 1 ∧
      mi'.global_initializers.take miEmpty.global_initializers.length
        = miEmpty.global_initializers ∧
      (∀ name, name ≠ "remaining_points" →
        mi'.exports name = miEmpty.exports name) ∧
      mi'.functions = miEmpty.functions ∧
      mi'.memories = miEmpty.memories ∧
      mi'.tables = miEmpty.tables ∧
      mi'.start_function = miEmpty.start_function ∧
      mi'.imports = miEmpty.imports :=
  claim_C8 (Metering.new 10 (fun _ => 1)) miEmpty rfl

/-- C7. `get_remaining_points` looks up the `"remaining_points"` export
and returns its value as `u64`, and panics (`none`) when the export is
absent, is not a global, or holds a non-i64 value; `set_remaining_points`
looks up the same export and overwrites its value with the given `u64`,
leaving every other export untouched. -/
theorem claim_C7 (inst : Instance) :
    (∀ ty v, inst.exports "remaining_points" = some (Extern.global ⟨ty, Value.i64 v⟩) →
        get_remaining_points inst = some (intToU64 v)) ∧
    (inst.exports "remaining_points" = none → get_remaining_points inst = none) ∧
    (∀ i, inst.exports "remaining_points" = some (Extern.function i) →
        get_remaining_points inst = none) ∧
    (∀ g, inst.exports "remaining_points" = some (Extern.global g) →
        (∀ v, g.value ≠ Value.i64 v) → get_remaining_points inst = none) ∧
    (∀ w points, inst.exports "remaining_points"
          = some (Extern.global ⟨⟨Ty.i64, Mutability.var⟩, w⟩) →
        set_remaining_points inst points =
          some ⟨fun name =>
            if name = "remaining_points" then
              some (Extern.global ⟨⟨Ty.i64, Mutability.var⟩, Value.i64 (toI64 points)⟩)
            else inst.exports name⟩ ∧
        (points < U64 →
          (set_remaining_points inst points).bind get_remaining_points = some points)) := by
  refine ⟨?_, ?_, ?_, ?_, ?_⟩
  · intro ty v h
    unfold get_remaining_points Instance.get_global
    rw [h]
    rfl
  · intro h
    unfold get_remaining_points Instance.get_global
    rw [h]
  · intro i h
    unfold get_remaining_points Instance.get_global
    rw [h]
  · intro g h hv
    unfold get_remaining_points Instance.get_global
    rw [h]
    dsimp only
    match hg : g.value with
    | Value.i64 v => exact absurd hg (hv v)
    | Value.i32 _ => rfl
    | Value.f32 _ => rfl
    | Value.f64 _ => rfl
  · intro w points h
    have hset : set_remaining_points inst points =
        some ⟨fun name =>
          if name = "remaining_points" then
            some (Extern.global ⟨⟨Ty.i64, Mutability.var⟩, Value.i64 (toI64 points)⟩)
          else inst.exports name⟩ := by
      unfold set_remaining_points Instance.get_global
      rw [h]
      rfl
    refine ⟨hset, fun hlt => ?_⟩
    rw [hset]
    simp [get_remaining_points, Instance.get_global, Value.tryIntoU64,
      intToU64_toI64 points hlt]

/-- Witness for C7: reading the budget of `instSeven` yields 7, and
setting it to 12 overwrites the stored value so a subsequent read yields
12. -/
theorem claim_C7_witness :
    get_remaining_points instSeven = some (intToU64 7) ∧
    (set_remaining_points instSeven 12 =
      some ⟨fun name =>
        if name = "remaining_points" then
          some (Extern.global ⟨⟨Ty.i64, Mutability.var⟩, Value.i64 (toI64 12)⟩)
        else instSeven.exports name⟩ ∧
      (12 < U64 →
        (set_remaining_points instSeven 12).bind get_remaining_points = some 12)) :=
  ⟨(claim_C7 instSeven).1 ⟨Ty.i64, Mutability.var⟩ 7 rfl,
   (claim_C7 instSeven).2.2.2.2 (Value.i64 7) 12 rfl⟩

/-- Executing the guard-plus-deduction sequence: with `R` in the metered
global, the run traps (leaving all globals untouched) exactly when
`R < c` unsigned, and otherwise completes, setting the global to `R - c`
and restoring the operand stack. -/
theorem exec_flushSeq (idx c R : Nat) (stack : List Nat) (globals : Nat → Nat)
    (hc : c < U64) (hR : globals idx = R) (hRU : R < U64) :
    (R < c → exec (flushSeq idx c) none stack globals = ExecResult.trap globals) ∧
    (¬ R < c → exec (flushSeq idx c) none stack globals =
      ExecResult.ok stack (fun j => if j = idx then R - c else globals j)) := by
  constructor
  · intro hlt
    simp only [flushSeq, exec, hR, intToU64_toI64 c hc]
    rw [if_pos hlt]
    norm_num [exec]
  · intro hge
    have hsub : (R + U64 - c) % U64 = R - c := by
      rw [show R + U64 - c = R - c + U64 from by omega, Nat.add_mod_right]
      exact Nat.mod_eq_of_lt (by omega)
    simp only [flushSeq, exec, hR, intToU64_toI64 c hc]
    rw [if_neg hge]
    norm_num [exec, hsub]

/-- C1. For a flush emitted by `feed` with accumulated cost `c > 0`, the
injected guard-plus-deduction sequence traps exactly when the global's
value `R` is less than `c` (unsigned 64-bit); on a trap the globals —
and in particular the remaining-points global, still `R` — are
untouched, and otherwise the global ends at exactly `R - c`. -/
theorem claim_C1 (fm : FunctionMetering) (op : Operator) (R : Nat)
    (stack : List Nat) (globals : Nat → Nat)
    (hb : isBranchOp op = true)
    (hc : 0 < (fm.accumulated_cost + fm.cost_function op) % U64)
    (hR : globals fm.remaining_points_index = R) (hRU : R < U64) :
    (fm.feed op).2 =
      flushSeq fm.remaining_points_index
        ((fm.accumulated_cost + fm.cost_function op) % U64) ++ [op] ∧
    (R < (fm.accumulated_cost + fm.cost_function op) % U64 →
      exec (flushSeq fm.remaining_points_index
          ((fm.accumulated_cost + fm.cost_function op) % U64)) none stack globals
        = ExecResult.trap globals) ∧
    (¬ R < (fm.accumulated_cost + fm.cost_function op) % U64 →
      exec (flushSeq fm.remaining_points_index
          ((fm.accumulated_cost + fm.cost_function op) % U64)) none stack globals
        = ExecResult.ok stack (fun j =>
            if j = fm.remaining_points_index then
              R - (fm.accumulated_cost + fm.cost_function op) % U64
            else globals j)) := by
  have hexec := exec_flushSeq fm.remaining_points_index
    ((fm.accumulated_cost + fm.cost_function op) % U64) R stack globals
    (Nat.mod_lt _ (by unfold U64; positivity)) hR hRU
  exact ⟨(feed_flush fm op hb hc).1, hexec.1, hexec.2⟩

/-- Witness for C1: a flush of 5 points against a budget of 3 traps with
the budget untouched; against a budget of 9 it completes leaving 4. -/
theorem claim_C1_witness :
    (fmOne.feed Operator.return_).2 =
      flushSeq fmOne.remaining_points_index
        ((fmOne.accumulated_cost + fmOne.cost_function Operator.return_) % U64)
        ++ [Operator.return_] ∧
    exec (flushSeq fmOne.remaining_points_index
        ((fmOne.accumulated_cost + fmOne.cost_function Operator.return_) % U64))
      none [] (fun _ => 0) = ExecResult.trap (fun _ => 0) :=
  ⟨(claim_C1 fmOne Operator.return_ 0 [] (fun _ => 0) rfl (by decide) rfl
      (by decide)).1,
   (claim_C1 fmOne Operator.return_ 0 [] (fun _ => 0) rfl (by decide) rfl
      (by decide)).2.1 (by decide)⟩
